import Mathlib

/-!
Shallow embedding of the sales-forecasting pipeline implemented in
`src/components/SalesForecast.jsx`.

The component's core logic is three functions:
* `targetFileUpload` — CSV text → validated list of observations,
* `dataProcessing`   — observations → feature/target rows plus the encoding
  table (distinct products in first-seen order, distinct months sorted,
  product → scalar encoder),
* `predictSales`     — trained model + stored observations → 6 monthly
  predictions per product.

JavaScript numbers are modelled by `JSNum` (NaN, signed infinities, or an
exact rational); machine floats are embedded as exact rationals.  Strings are
handled at the `List Char` level so that every definition is structurally
recursive and evaluates inside the kernel.  Calendar arithmetic
(`new Date(s)`, `getMonth`, `setMonth`, `toISOString`) is modelled on
(year, month) pairs, assuming the host timezone is UTC, which is the regime
in which date-only ISO strings round-trip through those APIs.
-/

namespace SalesForecast

/-- Model of a JavaScript number as produced by `parseFloat` / `Number`:
either NaN, a signed infinity (`inf true` is `+Infinity`), or a finite value
kept as an exact rational. -/
inductive JSNum where
  | nan : JSNum
  | inf : Bool → JSNum
  | fin : ℚ → JSNum
deriving DecidableEq

/-- `true` exactly on finite JavaScript numbers. -/
def JSNum.isFinite : JSNum → Bool
  | .fin _ => true
  | _ => false

/-- Division of a JavaScript number by a nonzero rational constant
(used for the `quantity / 1000` target scaling). -/
def JSNum.divBy : JSNum → ℚ → JSNum
  | .nan, _ => .nan
  | .inf b, _ => .inf b
  | .fin q, k => .fin (q / k)

/-- The whitespace characters trimmed by JavaScript `trim` that can occur in
ASCII CSV text: space, tab, line feed, carriage return, vertical tab, form
feed. -/
def isJSSpace (c : Char) : Bool :=
  c = ' ' || c = '\t' || c = '\n' || c = '\r' || c = '\x0b' || c = '\x0c'

/-- JavaScript `String.prototype.trim` on a character list: drop whitespace
from both ends. -/
def trimL (l : List Char) : List Char :=
  ((l.dropWhile isJSSpace).reverse.dropWhile isJSSpace).reverse

/-- JavaScript `String.prototype.split` with a single-character separator:
`""` splits to `[""]`, separators at the ends produce empty fields. -/
def splitOnChar (sep : Char) : List Char → List (List Char)
  | [] => [[]]
  | c :: t =>
    if c = sep then [] :: splitOnChar sep t
    else
      match splitOnChar sep t with
      | f :: r => (c :: f) :: r
      | [] => [[c]]

/-- `line.split(',')`. -/
def splitCommas (l : List Char) : List (List Char) := splitOnChar ',' l

/-- `text.split('\n')`. -/
def splitLines (l : List Char) : List (List Char) := splitOnChar '\n' l

/-- `item.trim().replace(/"/g, '')`: trim surrounding whitespace first, then
delete every double-quote character (interior ones included). -/
def cleanFieldL (s : List Char) : List Char :=
  (trimL s).filter (fun c => !(c = '"'))

/-- Numeric value of a decimal digit character. -/
def digitVal (c : Char) : ℕ := c.toNat - 48

/-- Value of a digit string read in base 10. -/
def digitsToNat (l : List Char) : ℕ := l.foldl (fun a c => 10 * a + digitVal c) 0

/-- Value of `intDigits.fracDigits` as an exact rational. -/
def mantissaVal (intd fracd : List Char) : ℚ :=
  (digitsToNat intd : ℚ) + (digitsToNat fracd : ℚ) / (10 : ℚ) ^ fracd.length

/-- Apply an optional leading minus sign (`true` = positive). -/
def applySign (sign : Bool) (q : ℚ) : ℚ := if sign then q else -q

/-- Strip one optional leading `+`/`-`; `true` means non-negative. -/
def splitSign : List Char → Bool × List Char
  | '+' :: r => (true, r)
  | '-' :: r => (false, r)
  | l => (true, l)

/-- JavaScript `parseFloat` on a character list: skip leading whitespace,
read an optional sign, then the longest prefix that is `Infinity` or a
decimal literal (`digits[.digits][e[±]digits]`); NaN when no digits are
found.  Values are kept as exact rationals. -/
def parseFloatL (s : List Char) : JSNum :=
  let l := s.dropWhile isJSSpace
  let sl := splitSign l
  match sl.2 with
  | 'I' :: 'n' :: 'f' :: 'i' :: 'n' :: 'i' :: 't' :: 'y' :: _ => JSNum.inf sl.1
  | l1 =>
    let intd := l1.takeWhile Char.isDigit
    let l2 := l1.dropWhile Char.isDigit
    let fr : List Char × List Char :=
      match l2 with
      | '.' :: r => (r.takeWhile Char.isDigit, r.dropWhile Char.isDigit)
      | _ => ([], l2)
    if intd.isEmpty && fr.1.isEmpty then JSNum.nan
    else
      let e : ℤ :=
        match fr.2 with
        | c :: r =>
          if c = 'e' || c = 'E' then
            let es := splitSign r
            let ed := es.1
            let dl := es.2.takeWhile Char.isDigit
            if dl.isEmpty then 0
            else if ed then (digitsToNat dl : ℤ) else -(digitsToNat dl : ℤ)
          else 0
        | [] => 0
      JSNum.fin (applySign sl.1 (mantissaVal intd fr.1 * (10 : ℚ) ^ e))

/-- Hexadecimal digit test. -/
def isHexDigitJS (c : Char) : Bool :=
  c.isDigit || ('a' ≤ c && c ≤ 'f') || ('A' ≤ c && c ≤ 'F')

/-- Value of a hexadecimal digit character. -/
def hexVal (c : Char) : ℕ :=
  if c.isDigit then c.toNat - 48
  else if 'a' ≤ c && c ≤ 'f' then c.toNat - 87
  else c.toNat - 55

/-- Value of a digit string read in base `b` with digit values `dv`. -/
def radixToNat (b : ℕ) (dv : Char → ℕ) (l : List Char) : ℕ :=
  l.foldl (fun a c => b * a + dv c) 0

/-- A full decimal literal (`digits[.digits][e[±]digits]`) that must consume
the whole input, as required by `Number(string)`; `none` when the input is
not exactly such a literal. -/
def decLitVal (l : List Char) : Option ℚ :=
  let intd := l.takeWhile Char.isDigit
  let l2 := l.dropWhile Char.isDigit
  let fr : List Char × List Char :=
    match l2 with
    | '.' :: r => (r.takeWhile Char.isDigit, r.dropWhile Char.isDigit)
    | _ => ([], l2)
  if intd.isEmpty && fr.1.isEmpty then none
  else
    match fr.2 with
    | [] => some (mantissaVal intd fr.1)
    | c :: r =>
      if c = 'e' || c = 'E' then
        let es := splitSign r
        let dl := es.2.takeWhile Char.isDigit
        let rest := es.2.dropWhile Char.isDigit
        if dl.isEmpty || !rest.isEmpty then none
        else
          some (mantissaVal intd fr.1 *
            (10 : ℚ) ^ (if es.1 then (digitsToNat dl : ℤ) else -(digitsToNat dl : ℤ)))
      else none

/-- Signed part of `Number(string)`: exactly `Infinity` or a full decimal
literal. -/
def toNumberDec (l : List Char) : JSNum :=
  let sl := splitSign l
  match sl.2 with
  | ['I', 'n', 'f', 'i', 'n', 'i', 't', 'y'] => JSNum.inf sl.1
  | l1 =>
    match decLitVal l1 with
    | some q => JSNum.fin (applySign sl.1 q)
    | none => JSNum.nan

/-- JavaScript `Number(string)` (the coercion performed by `isNaN`): trim
whitespace, the empty string is `0`, unsigned `0x`/`0o`/`0b` radix literals,
otherwise an optionally signed `Infinity` or decimal literal consuming the
whole string; anything else is NaN. -/
def toNumberL (s : List Char) : JSNum :=
  let l := trimL s
  match l with
  | [] => JSNum.fin 0
  | '0' :: c :: r =>
    if c = 'x' || c = 'X' then
      if !r.isEmpty && r.all isHexDigitJS then JSNum.fin (radixToNat 16 hexVal r) else JSNum.nan
    else if c = 'o' || c = 'O' then
      if !r.isEmpty && r.all (fun d => '0' ≤ d && d ≤ '7') then
        JSNum.fin (radixToNat 8 digitVal r)
      else JSNum.nan
    else if c = 'b' || c = 'B' then
      if !r.isEmpty && r.all (fun d => d = '0' || d = '1') then
        JSNum.fin (radixToNat 2 digitVal r)
      else JSNum.nan
    else toNumberDec l
  | _ => toNumberDec l

/-- The date guard `/^\d{4}-\d{2}$/`: exactly four digits, a dash, two
digits. -/
def matchesYML (l : List Char) : Bool :=
  match l with
  | [a, b, c, d, h, e, f] =>
    a.isDigit && b.isDigit && c.isDigit && d.isDigit && h = '-' && e.isDigit && f.isDigit
  | _ => false

/-- One parsed observation: `{date, product, quantity}` as pushed by the
upload handler. -/
structure Obs where
  date : String
  product : String
  quantity : JSNum
deriving DecidableEq

/-- One iteration of the row loop in `targetFileUpload`: skip blank lines,
split on commas and clean each field, then drop the row unless the date
matches `YYYY-MM`, the quantity does not `parseFloat` to NaN, and the
product coerces to NaN under `Number` (the `!isNaN(product)` guard); kept
rows get `-01` appended to the date. -/
def parseRowL (line : List Char) : Option Obs :=
  if trimL line = [] then none
  else
    let fields := (splitCommas line).map cleanFieldL
    let date := fields.getD 0 []
    let q : JSNum :=
      match fields[2]? with
      | none => JSNum.nan
      | some s => parseFloatL s
    let productNaN : Bool :=
      match fields[1]? with
      | none => true
      | some p => toNumberL p == JSNum.nan
    if matchesYML date && !(q == JSNum.nan) && productNaN then
      some ⟨String.mk (date ++ ['-', '0', '1']), String.mk (fields.getD 1 []), q⟩
    else none

/-- The observation built from a (well-formed) row: date with `-01`
appended, cleaned product field, parsed quantity. -/
def rowObsL (line : List Char) : Obs :=
  let fields := (splitCommas line).map cleanFieldL
  ⟨String.mk (fields.getD 0 [] ++ ['-', '0', '1']), String.mk (fields.getD 1 []),
    match fields[2]? with
    | none => JSNum.nan
    | some s => parseFloatL s⟩

/-- A data row is well-formed when its (cleaned) date field matches
`YYYY-MM`, its quantity field does not parse to NaN, and its product field
is not numeric. -/
def wellFormedRowL (line : List Char) : Bool :=
  let fields := (splitCommas line).map cleanFieldL
  matchesYML (fields.getD 0 []) &&
  !((match fields[2]? with
     | none => JSNum.nan
     | some s => parseFloatL s) == JSNum.nan) &&
  (match fields[1]? with
   | none => true
   | some p => toNumberL p == JSNum.nan)

/-- `text.split('\n').slice(1)`: all rows after the header. -/
def dataLinesL (text : List Char) : List (List Char) := (splitLines text).drop 1

/-- The observations kept by the row loop, in original order. -/
def parseDataL (text : List Char) : List Obs := (dataLinesL text).filterMap parseRowL

/-- The parsing part of `targetFileUpload`: parse every data row, and fail
with the `No valid data` error when no observation survives. -/
def targetFileUpload (text : String) : Except String (List Obs) :=
  let parsedData := parseDataL text.data
  if parsedData.length = 0 then Except.error "No valid data could be parsed from the file"
  else Except.ok parsedData

/-- Accumulator version of `[...new Set(xs)]`: distinct elements in order of
first occurrence. -/
def firstSeenAux (acc : List String) : List String → List String
  | [] => acc.reverse
  | a :: t => if a ∈ acc then firstSeenAux acc t else firstSeenAux (a :: acc) t

/-- `[...new Set(xs)]`: deduplicate, keeping first occurrences in order. -/
def firstSeen (l : List String) : List String := firstSeenAux [] l

/-- JavaScript default string comparison (code-unit lexicographic `≤`),
structural so that it evaluates in the kernel. -/
def listLe : List Char → List Char → Bool
  | [], _ => true
  | _ :: _, [] => false
  | a :: as, b :: bs =>
    if a.toNat < b.toNat then true
    else if b.toNat < a.toNat then false
    else listLe as bs

/-- Insert into a `listLe`-sorted list. -/
def insertSorted (x : String) : List String → List String
  | [] => [x]
  | y :: t => if listLe x.data y.data then x :: y :: t else y :: insertSorted x t

/-- `.sort()` with the default comparator: sort strings by code-unit order
(insertion sort; on the deduplicated date list the result is the unique
sorted arrangement). -/
def sortStrings : List String → List String
  | [] => []
  | x :: t => insertSorted x (sortStrings t)

/-- `products.forEach((p, i) => encoder[p] = i / products.length)` as an
association list, generalized over the running index. -/
def mkEncoderAux (n : ℕ) : ℕ → List String → List (String × ℚ)
  | _, [] => []
  | i, p :: t => (p, (i : ℚ) / (n : ℚ)) :: mkEncoderAux n (i + 1) t

/-- The product encoder object: product `i` of the first-seen ordering maps
to `i / products.length`. -/
def mkEncoder (products : List String) : List (String × ℚ) :=
  mkEncoderAux products.length 0 products

/-- `encoder[p]`: first matching entry of the association list (every use in
the component looks up a key that is present). -/
def encLookup (e : List (String × ℚ)) (p : String) : ℚ :=
  ((e.find? (fun x => x.1 = p)).map (fun x => x.2)).getD 0

/-- The value returned by `dataProcessing`: feature rows, scaled targets,
encoder object, sorted distinct dates, distinct products. -/
structure Processed where
  inputs : List (ℚ × ℚ)
  outputs : List JSNum
  encoder : List (String × ℚ)
  dates : List String
  products : List String
deriving DecidableEq

/-- `dataProcessing`: fails (returns `null`) on an empty observation list;
otherwise builds the distinct product list (first-seen order), the sorted
distinct date list, the product encoder, one feature row
`[dates.indexOf(d.date) / dates.length, encoder[d.product]]` per
observation, and the targets `d.quantity / 1000`. -/
def dataProcessing (salesData : List Obs) : Option Processed :=
  if salesData.length = 0 then none
  else
    let products := firstSeen (salesData.map (fun d => d.product))
    let dates := sortStrings (firstSeen (salesData.map (fun d => d.date)))
    let encoder := mkEncoder products
    some
      { inputs := salesData.map (fun d =>
          ((dates.indexOf d.date : ℚ) / (dates.length : ℚ), encLookup encoder d.product)),
        outputs := salesData.map (fun d => d.quantity.divBy 1000),
        encoder := encoder,
        dates := dates,
        products := products }

/-- Reading `new Date(dateString)` for the stored `YYYY-MM-01` strings: the
(year, month) pair, valid only when the month is `01`–`12` (otherwise the
Date is invalid and `toISOString` throws). -/
def parseYMD (s : String) : Option (ℕ × ℕ) :=
  match s.data with
  | [a, b, c, d, h1, e, f, h2, z, o] =>
    if a.isDigit && b.isDigit && c.isDigit && d.isDigit && h1 = '-' &&
        e.isDigit && f.isDigit && h2 = '-' && z = '0' && o = '1' then
      if 1 ≤ 10 * digitVal e + digitVal f ∧ 10 * digitVal e + digitVal f ≤ 12 then
        some (1000 * digitVal a + 100 * digitVal b + 10 * digitVal c + digitVal d,
          10 * digitVal e + digitVal f)
      else none
    else none
  | _ => none

/-- `nextDate.setMonth(lastDate.getMonth() + i)` on a first-of-month date:
add `i` months with year carry (month is 1-based here). -/
def addMonths (y m i : ℕ) : ℕ × ℕ :=
  ((y * 12 + (m - 1) + i) / 12, (y * 12 + (m - 1) + i) % 12 + 1)

/-- The calendar successor of a (year, month) pair. -/
def nextMonth (ym : ℕ × ℕ) : ℕ × ℕ :=
  if ym.2 = 12 then (ym.1 + 1, 1) else (ym.1, ym.2 + 1)

/-- Zero-pad a natural number to `w` digits. -/
def padNum (w n : ℕ) : String :=
  String.mk (List.replicate (w - (toString n).length) '0') ++ toString n

/-- `toISOString().slice(0, 7)` of a first-of-month UTC date: `YYYY-MM`
(for years above 9999 `toISOString` switches to the expanded `+YYYYYY-…`
format, whose first seven characters carry no month). -/
def monthString (y m : ℕ) : String :=
  if y ≤ 9999 then padNum 4 y ++ "-" ++ padNum 2 m
  else "+" ++ padNum 6 y

/-- The synthetic time index used for prediction:
`(dates.length + i) / (dates.length + 6)`. -/
def syntheticIndex (m i : ℕ) : ℚ := ((m + i : ℕ) : ℚ) / ((m + 6 : ℕ) : ℚ)

/-- `Math.round`: nearest integer, halves toward positive infinity. -/
def jsRound (q : ℚ) : ℤ := ⌊q + 1 / 2⌋

/-- One prediction row `{date, product, quantity}`. -/
structure Pred where
  date : String
  product : String
  quantity : ℚ
deriving DecidableEq

/-- `predictSales`: re-run `dataProcessing` on the stored observations, read
the last (greatest) observed month, and for each product and offset
`i = 1..6` predict on `[(dates.length + i) / (dates.length + 6),
encoder[product]]`, post-processing the raw model output `v` to
`max(0, round(1000 * v))`.  Returns `none` when `dataProcessing` fails or
the last date is not a valid month (in which case `toISOString` throws and
no predictions are produced). -/
def predictSales (f : ℚ → ℚ → ℚ) (salesData : List Obs) : Option (List Pred) :=
  match dataProcessing salesData with
  | none => none
  | some processed =>
    match parseYMD ((processed.dates.getLast?).getD "") with
    | none => none
    | some ym =>
      some (processed.products.flatMap (fun product =>
        (List.range' 1 6).map (fun i =>
          let target := addMonths ym.1 ym.2 i
          let value := f (syntheticIndex processed.dates.length i)
            (encLookup processed.encoder product) * 1000
          { date := monthString target.1 target.2,
            product := product,
            quantity := ((max 0 (jsRound value) : ℤ) : ℚ) })))

/-- The encoding table of spec §3: distinct products in first-seen order,
sorted distinct months, and the product-code mapping. -/
structure EncodingTable where
  products : List String
  months : List String
  product_code : List (String × ℚ)
deriving DecidableEq

/-- Modelled from the spec (§4.4 Forecast Generator): `generate` takes the
trained model, the encoding table captured at training time and the last
observed month, and for each product and offset `1..6` predicts at the
synthetic time index `(count(months) + offset) / (count(months) + 6)` and
the product's code, the target month being the offset-th calendar successor
of the last observed month; raw output is scaled by 1000, rounded, clamped
at 0. -/
def generate (f : ℚ → ℚ → ℚ) (table : EncodingTable) (lastMonth : ℕ × ℕ) : List Pred :=
  table.products.flatMap (fun product =>
    (List.range' 1 6).map (fun offset =>
      let target := nextMonth^[offset] lastMonth
      let raw := f (syntheticIndex table.months.length offset)
        (encLookup table.product_code product)
      { date := monthString target.1 target.2,
        product := product,
        quantity := ((max 0 (jsRound (raw * 1000)) : ℤ) : ℚ) }))

/-! ### Helper lemmas about the embedded definitions -/

theorem splitOnChar_ne_nil (sep : Char) (l : List Char) : splitOnChar sep l ≠ [] := by
  induction l with
  | nil => simp [splitOnChar]
  | cons c t ih =>
    unfold splitOnChar
    by_cases h : c = sep
    · simp [h]
    · rw [if_neg h]
      cases hs : splitOnChar sep t <;> simp

theorem mem_of_mem_splitOnChar (sep : Char) (l : List Char) (f : List Char)
    (hf : f ∈ splitOnChar sep l) (c : Char) (hc : c ∈ f) : c ∈ l := by
  induction l generalizing f with
  | nil =>
    simp [splitOnChar] at hf
    subst hf
    cases hc
  | cons a t ih =>
    unfold splitOnChar at hf
    by_cases h : a = sep
    · rw [if_pos h] at hf
      rcases List.mem_cons.mp hf with rfl | hf1
      · cases hc
      · exact List.mem_cons_of_mem a (ih f hf1 hc)
    · rw [if_neg h] at hf
      cases hs : splitOnChar sep t with
      | nil => exact absurd hs (splitOnChar_ne_nil sep t)
      | cons g r =>
        rw [hs] at hf
        rcases List.mem_cons.mp hf with rfl | hf1
        · rcases List.mem_cons.mp hc with rfl | hc1
          · exact List.mem_cons_self c t
          · exact List.mem_cons_of_mem a (ih g (by rw [hs]; exact List.mem_cons_self g r) hc1)
        · exact List.mem_cons_of_mem a (ih f (by rw [hs]; exact List.mem_cons_of_mem g hf1) hc)

theorem trimL_eq_nil_of (l : List Char) (h : ∀ c ∈ l, isJSSpace c) : trimL l = [] := by
  unfold trimL
  have h1 : l.dropWhile isJSSpace = [] := List.dropWhile_eq_nil_iff.mpr h
  simp [h1]

theorem allSpace_of_trimL (l : List Char) (h : trimL l = []) : ∀ c ∈ l, isJSSpace c := by
  unfold trimL at h
  rw [List.reverse_eq_nil_iff] at h
  have h2 : ∀ c ∈ (l.dropWhile isJSSpace).reverse, isJSSpace c :=
    List.dropWhile_eq_nil_iff.mp h
  have h3 : ∀ c ∈ l.dropWhile isJSSpace, isJSSpace c := fun c hc =>
    h2 c (List.mem_reverse.mpr hc)
  intro c hc
  rw [← List.takeWhile_append_dropWhile isJSSpace l] at hc
  rcases List.mem_append.mp hc with h4 | h4
  · exact List.mem_takeWhile_imp h4
  · exact h3 c h4

theorem mem_trimL (l : List Char) (c : Char) (h : c ∈ trimL l) : c ∈ l := by
  unfold trimL at h
  have h1 := List.mem_reverse.mp h
  have h2 := (List.dropWhile_sublist isJSSpace).subset h1
  have h3 := List.mem_reverse.mp h2
  exact (List.dropWhile_sublist isJSSpace).subset h3

theorem mem_cleanFieldL (s : List Char) (c : Char) (h : c ∈ cleanFieldL s) :
    c ∈ s ∧ c ≠ '"' := by
  unfold cleanFieldL at h
  have h1 := List.mem_filter.mp h
  refine ⟨mem_trimL s c h1.1, by simpa using h1.2⟩

theorem cleanFieldL_eq_nil (s : List Char) (h : ∀ c ∈ s, isJSSpace c) : cleanFieldL s = [] := by
  unfold cleanFieldL
  rw [trimL_eq_nil_of s h]
  rfl

theorem wellFormed_false_of_blank (line : List Char) (h : trimL line = []) :
    wellFormedRowL line = false := by
  have hall := allSpace_of_trimL line h
  unfold wellFormedRowL
  cases hs : splitCommas line with
  | nil => exact absurd hs (splitOnChar_ne_nil ',' line)
  | cons p0 r =>
    have hp0 : ∀ c ∈ p0, isJSSpace c := fun c hc =>
      hall c (mem_of_mem_splitOnChar ',' line p0
        (by rw [show splitOnChar ',' line = splitCommas line from rfl, hs]
            exact List.mem_cons_self p0 r) c hc)
    simp [hs, cleanFieldL_eq_nil p0 hp0, matchesYML]

theorem parseRowL_eq (line : List Char) :
    parseRowL line = if wellFormedRowL line then some (rowObsL line) else none := by
  by_cases hb : trimL line = []
  · rw [wellFormed_false_of_blank line hb]
    simp [parseRowL, hb]
  · unfold parseRowL
    rw [if_neg hb]
    rfl

theorem filterMap_ite {α β : Type} (p : α → Bool) (f : α → β) (l : List α) :
    (l.filterMap (fun x => if p x then some (f x) else none)) = (l.filter p).map f := by
  induction l with
  | nil => rfl
  | cons a t ih =>
    by_cases h : p a <;> simp [List.filterMap_cons, List.filter_cons, h, ih]

theorem parseDataL_eq (text : List Char) :
    parseDataL text = ((dataLinesL text).filter wellFormedRowL).map rowObsL := by
  unfold parseDataL
  rw [show parseRowL = (fun line => if wellFormedRowL line then some (rowObsL line) else none)
    from funext parseRowL_eq]
  exact filterMap_ite wellFormedRowL rowObsL (dataLinesL text)

theorem dataProcessing_eq (salesData : List Obs) (proc : Processed)
    (h : dataProcessing salesData = some proc) :
    salesData ≠ [] ∧
    proc.products = firstSeen (salesData.map (fun d => d.product)) ∧
    proc.dates = sortStrings (firstSeen (salesData.map (fun d => d.date))) ∧
    proc.encoder = mkEncoder (firstSeen (salesData.map (fun d => d.product))) ∧
    proc.inputs = salesData.map (fun d =>
      ((proc.dates.indexOf d.date : ℚ) / (proc.dates.length : ℚ),
        encLookup proc.encoder d.product)) := by
  unfold dataProcessing at h
  by_cases h0 : salesData.length = 0
  · rw [if_pos h0] at h; cases h
  · rw [if_neg h0] at h
    have he := Option.some.inj h
    subst he
    exact ⟨by simpa using h0, rfl, rfl, rfl, rfl⟩

theorem predictSales_eq (f : ℚ → ℚ → ℚ) (salesData : List Obs) (proc : Processed) (y m : ℕ)
    (hp : dataProcessing salesData = some proc)
    (hl : parseYMD ((proc.dates.getLast?).getD "") = some (y, m)) :
    predictSales f salesData = some (proc.products.flatMap (fun product =>
      (List.range' 1 6).map (fun i =>
        { date := monthString (addMonths y m i).1 (addMonths y m i).2,
          product := product,
          quantity := ((max 0 (jsRound (f (syntheticIndex proc.dates.length i)
            (encLookup proc.encoder product) * 1000)) : ℤ) : ℚ) }))) := by
  unfold predictSales
  rw [hp]
  simp only [hl]

theorem parseYMD_bounds (s : String) (y m : ℕ) (h : parseYMD s = some (y, m)) :
    1 ≤ m ∧ m ≤ 12 := by
  unfold parseYMD at h
  split at h
  · split at h
    · split at h
      · rename_i hm
        have h3 := Option.some.inj h
        rw [Prod.mk.injEq] at h3
        obtain ⟨rfl, rfl⟩ := h3
        exact hm
      · cases h
    · cases h
  · cases h

theorem addMonths_iterate (y m : ℕ) (h1 : 1 ≤ m) (h2 : m ≤ 12) (i : ℕ) :
    addMonths y m i = nextMonth^[i] (y, m) := by
  induction i with
  | zero =>
    simp only [Function.iterate_zero, id_eq, addMonths]
    rw [Prod.mk.injEq]
    constructor <;> omega
  | succ i ih =>
    rw [Function.iterate_succ_apply', ← ih]
    unfold addMonths nextMonth
    simp only
    split <;> (rename_i hc ; rw [Prod.mk.injEq] ; constructor <;> omega)

theorem mem_mkEncoderAux (n : ℕ) (i : ℕ) (l : List String) (pv : String × ℚ)
    (h : pv ∈ mkEncoderAux n i l) :
    ∃ k, i ≤ k ∧ k < i + l.length ∧ pv.2 = (k : ℚ) / (n : ℚ) := by
  induction l generalizing i with
  | nil => cases h
  | cons p t ih =>
    unfold mkEncoderAux at h
    rcases List.mem_cons.mp h with rfl | h1
    · exact ⟨i, le_refl i, by simp, rfl⟩
    · obtain ⟨k, hk1, hk2, hk3⟩ := ih (i + 1) h1
      exact ⟨k, by omega, by simp only [List.length_cons]; omega, hk3⟩

theorem encLookup_head (p : String) (v : ℚ) (t : List (String × ℚ)) :
    encLookup ((p, v) :: t) p = v := by
  unfold encLookup
  rw [List.find?_cons_of_pos]
  · rfl
  · simp

theorem firstSeenAux_mem (acc : List String) (l : List String) (x : String) :
    x ∈ firstSeenAux acc l ↔ x ∈ acc ∨ x ∈ l := by
  induction l generalizing acc with
  | nil => simp [firstSeenAux]
  | cons a t ih =>
    unfold firstSeenAux
    by_cases h : a ∈ acc
    · rw [if_pos h, ih]
      constructor
      · rintro (h1 | h1)
        · exact Or.inl h1
        · exact Or.inr (List.mem_cons_of_mem a h1)
      · rintro (h1 | h1)
        · exact Or.inl h1
        · rcases List.mem_cons.mp h1 with rfl | h2
          · exact Or.inl h
          · exact Or.inr h2
    · rw [if_neg h, ih]
      simp only [List.mem_cons]
      tauto

theorem mem_firstSeen (l : List String) (x : String) : x ∈ firstSeen l ↔ x ∈ l := by
  unfold firstSeen
  rw [firstSeenAux_mem]
  simp

theorem firstSeenAux_prefix (acc : List String) (l : List String) :
    ∃ r, firstSeenAux acc l = acc.reverse ++ r := by
  induction l generalizing acc with
  | nil => exact ⟨[], by simp [firstSeenAux]⟩
  | cons a t ih =>
    unfold firstSeenAux
    by_cases h : a ∈ acc
    · rw [if_pos h]; exact ih acc
    · rw [if_neg h]
      obtain ⟨r, hr⟩ := ih (a :: acc)
      exact ⟨a :: r, by simp [hr]⟩

theorem firstSeen_head (a : String) (l : List String) :
    ∃ r, firstSeen (a :: l) = a :: r := by
  unfold firstSeen firstSeenAux
  rw [if_neg (List.not_mem_nil a)]
  obtain ⟨r, hr⟩ := firstSeenAux_prefix [a] l
  exact ⟨r, by simpa using hr⟩

theorem firstSeenAux_nodup (acc : List String) (l : List String) (h : acc.Nodup) :
    (firstSeenAux acc l).Nodup := by
  induction l generalizing acc with
  | nil =>
    unfold firstSeenAux
    exact List.nodup_reverse.mpr h
  | cons a t ih =>
    unfold firstSeenAux
    by_cases hm : a ∈ acc
    · rw [if_pos hm]; exact ih acc h
    · rw [if_neg hm]; exact ih (a :: acc) (List.nodup_cons.mpr ⟨hm, h⟩)

theorem firstSeen_nodup (l : List String) : (firstSeen l).Nodup :=
  firstSeenAux_nodup [] l List.nodup_nil

theorem mem_insertSorted (x y : String) (l : List String) :
    x ∈ insertSorted y l ↔ x = y ∨ x ∈ l := by
  induction l with
  | nil => simp [insertSorted]
  | cons z t ih =>
    unfold insertSorted
    by_cases h : listLe y.data z.data
    · rw [if_pos h]
      simp [List.mem_cons]
    · rw [if_neg h]
      simp only [List.mem_cons, ih]
      tauto

theorem mem_sortStrings (l : List String) (x : String) : x ∈ sortStrings l ↔ x ∈ l := by
  induction l with
  | nil => simp [sortStrings]
  | cons a t ih =>
    unfold sortStrings
    rw [mem_insertSorted, ih]
    simp

theorem sum_map_const_nat {α : Type} (l : List α) (c : ℕ) :
    (l.map (fun _ => c)).sum = c * l.length := by
  induction l with
  | nil => simp
  | cons a t ih =>
    simp only [List.map_cons, List.sum_cons, List.length_cons, ih]
    ring

/-! ### Claim theorems -/

/-- C8: for every encoding table with `M` distinct months, the synthetic time
index used for prediction equals `(M + offset) / (M + 6)` exactly, the index
at offset 6 is exactly 1, and the indices strictly increase in the offset
over `1..6`. -/
theorem synthetic_index_exact (M : ℕ) :
    (∀ i : ℕ, syntheticIndex M i = ((M : ℚ) + (i : ℚ)) / ((M : ℚ) + 6)) ∧
    syntheticIndex M 6 = 1 ∧
    (∀ i j : ℕ, 1 ≤ i → i < j → j ≤ 6 → syntheticIndex M i < syntheticIndex M j) := by
  refine ⟨?_, ?_, ?_⟩
  · intro i
    unfold syntheticIndex
    push_cast
    ring
  · unfold syntheticIndex
    rw [div_self]
    positivity
  · intro i j h1 h2 h3
    unfold syntheticIndex
    rw [div_lt_div_iff_of_pos_right (by positivity)]
    exact_mod_cast (by omega : M + i < M + j)

/-- Witness for C8 at `M = 2`: the index at offset 6 is 1 and the index is
strictly increasing from offset 1 to offset 2. -/
theorem synthetic_index_exact_witness :
    syntheticIndex 2 6 = 1 ∧ syntheticIndex 2 1 < syntheticIndex 2 2 :=
  ⟨(synthetic_index_exact 2).2.1,
   (synthetic_index_exact 2).2.2 1 2 (by norm_num) (by norm_num) (by norm_num)⟩

/-- C7: every predicted quantity produced by `predictSales` is a non-negative
integer: the raw model output is scaled by 1000, rounded, and clamped below
at 0, for every product and offset. -/
theorem predicted_quantity_nonneg (f : ℚ → ℚ → ℚ) (salesData : List Obs) (ps : List Pred)
    (h : predictSales f salesData = some ps) :
    ∀ p ∈ ps, 0 ≤ p.quantity ∧ ∃ n : ℕ, p.quantity = (n : ℚ) := by
  cases hdp : dataProcessing salesData with
  | none =>
    unfold predictSales at h
    rw [hdp] at h
    cases h
  | some proc =>
    cases hym : parseYMD ((proc.dates.getLast?).getD "") with
    | none =>
      unfold predictSales at h
      rw [hdp] at h
      simp only [hym] at h
      cases h
    | some ym =>
      rw [predictSales_eq f salesData proc ym.1 ym.2 hdp (by rw [hym])] at h
      have hb := Option.some.inj h
      intro p hp
      rw [← hb] at hp
      obtain ⟨prod, hprod, hp2⟩ := List.mem_flatMap.mp hp
      obtain ⟨i, hi, rfl⟩ := List.mem_map.mp hp2
      dsimp only
      constructor
      · exact_mod_cast le_max_left (0 : ℤ) _
      · refine ⟨(max 0 (jsRound (f (syntheticIndex proc.dates.length i)
          (encLookup proc.encoder prod) * 1000))).toNat, ?_⟩
        exact_mod_cast (Int.toNat_of_nonneg (le_max_left (0 : ℤ) _)).symm

/-- Witness for C7: a model that always outputs -2 yields prediction rows
whose quantity is the non-negative integer 0. -/
theorem predicted_quantity_nonneg_witness :
    0 ≤ (Pred.mk "2025-01" "A" 0).quantity ∧
      ∃ n : ℕ, (Pred.mk "2025-01" "A" 0).quantity = (n : ℚ) := by
  have hpred : predictSales (fun _ _ => (-2 : ℚ)) [⟨"2024-12-01", "A", JSNum.inf true⟩] =
      some [⟨"2025-01", "A", 0⟩, ⟨"2025-02", "A", 0⟩, ⟨"2025-03", "A", 0⟩,
            ⟨"2025-04", "A", 0⟩, ⟨"2025-05", "A", 0⟩, ⟨"2025-06", "A", 0⟩] := by
    rw [show predictSales (fun _ _ => (-2 : ℚ)) [⟨"2024-12-01", "A", JSNum.inf true⟩] =
        some ((["A"] : List String).flatMap (fun product =>
          (List.range' 1 6).map (fun i =>
            let target := addMonths 2024 12 i
            { date := monthString target.1 target.2,
              product := product,
              quantity := ((max 0 (jsRound ((-2 : ℚ) * 1000)) : ℤ) : ℚ) }))) from rfl]
    norm_num [jsRound, List.range', addMonths,
      show monthString 2025 1 = "2025-01" from rfl, show monthString 2025 2 = "2025-02" from rfl,
      show monthString 2025 3 = "2025-03" from rfl, show monthString 2025 4 = "2025-04" from rfl,
      show monthString 2025 5 = "2025-05" from rfl, show monthString 2025 6 = "2025-06" from rfl]
  exact predicted_quantity_nonneg (fun _ _ => (-2 : ℚ)) [⟨"2024-12-01", "A", JSNum.inf true⟩]
    _ hpred ⟨"2025-01", "A", 0⟩ (List.mem_cons_self _ _)

/-- C1: whenever `dataProcessing` succeeds and the last observed month is
valid, `predictSales` returns exactly `6 * P` predictions for the `P`
distinct products, and (in product-major order) the six months of each
product are the six consecutive calendar successors of the last observed
month, with year rollover handled by `nextMonth`. -/
theorem predictSales_shape (f : ℚ → ℚ → ℚ) (salesData : List Obs) (proc : Processed) (y m : ℕ)
    (hp : dataProcessing salesData = some proc)
    (hl : parseYMD ((proc.dates.getLast?).getD "") = some (y, m)) :
    ∃ ps, predictSales f salesData = some ps ∧
      ps.length = 6 * proc.products.length ∧
      proc.products.Nodup ∧
      ps.map (fun p => (p.product, p.date)) =
        proc.products.flatMap (fun prod =>
          (List.range' 1 6).map (fun i =>
            (prod, monthString (nextMonth^[i] (y, m)).1 (nextMonth^[i] (y, m)).2))) := by
  obtain ⟨hm1, hm2⟩ := parseYMD_bounds _ y m hl
  refine ⟨_, predictSales_eq f salesData proc y m hp hl, ?_, ?_, ?_⟩
  · simp only [List.length_flatMap, Function.comp_def, List.length_map, List.length_range']
    rw [sum_map_const_nat]
  · have hprod := (dataProcessing_eq salesData proc hp).2.1
    rw [hprod]
    exact firstSeen_nodup _
  · rw [List.map_flatMap]
    refine congrArg (fun g => proc.products.flatMap g) (funext fun prod => ?_)
    rw [List.map_map]
    refine congrArg (fun h => (List.range' 1 6).map h) (funext fun i => ?_)
    rw [← addMonths_iterate y m hm1 hm2 i]
    rfl

/-- Witness for C1: one product with last observed month 2024-12 yields six
predictions whose months are 2025-01 through 2025-06. -/
theorem predictSales_shape_witness :
    (∃ ps, predictSales (fun _ _ => (0 : ℚ)) [⟨"2024-12-01", "A", JSNum.inf true⟩] = some ps ∧
      ps.length = 6 * (["A"] : List String).length ∧
      (["A"] : List String).Nodup ∧
      ps.map (fun p => (p.product, p.date)) =
        (["A"] : List String).flatMap (fun prod =>
          (List.range' 1 6).map (fun i =>
            (prod, monthString (nextMonth^[i] (2024, 12)).1 (nextMonth^[i] (2024, 12)).2)))) ∧
    (List.range' 1 6).map (fun i =>
        monthString (nextMonth^[i] (2024, 12)).1 (nextMonth^[i] (2024, 12)).2) =
      ["2025-01", "2025-02", "2025-03", "2025-04", "2025-05", "2025-06"] :=
  ⟨predictSales_shape (fun _ _ => (0 : ℚ)) [⟨"2024-12-01", "A", JSNum.inf true⟩]
    ⟨[(((0 : ℕ) : ℚ) / ((1 : ℕ) : ℚ), encLookup [("A", ((0 : ℕ) : ℚ) / ((1 : ℕ) : ℚ))] "A")],
     [JSNum.inf true],
     [("A", ((0 : ℕ) : ℚ) / ((1 : ℕ) : ℚ))], ["2024-12-01"], ["A"]⟩
    2024 12 rfl rfl, by decide⟩

/-- C9: prediction re-runs `dataProcessing` on the same stored observations,
and the table it recomputes coincides with the one produced at training
time: `predictSales` equals the spec-side `generate` applied to the
training-time encoding table and the last observed month. -/
theorem predict_uses_training_table (f : ℚ → ℚ → ℚ) (salesData : List Obs)
    (proc : Processed) (y m : ℕ)
    (hp : dataProcessing salesData = some proc)
    (hl : parseYMD ((proc.dates.getLast?).getD "") = some (y, m)) :
    predictSales f salesData =
      some (generate f ⟨proc.products, proc.dates, proc.encoder⟩ (y, m)) := by
  obtain ⟨hm1, hm2⟩ := parseYMD_bounds _ y m hl
  rw [predictSales_eq f salesData proc y m hp hl]
  unfold generate
  refine congrArg some ?_
  refine congrArg (fun g => proc.products.flatMap g) (funext fun prod => ?_)
  refine congrArg (fun h => (List.range' 1 6).map h) (funext fun i => ?_)
  rw [addMonths_iterate y m hm1 hm2 i]

/-- Witness for C9 on a one-product data set. -/
theorem predict_uses_training_table_witness :
    predictSales (fun _ _ => (0 : ℚ)) [⟨"2024-12-01", "A", JSNum.inf true⟩] =
      some (generate (fun _ _ => (0 : ℚ))
        ⟨["A"], ["2024-12-01"], [("A", ((0 : ℕ) : ℚ) / ((1 : ℕ) : ℚ))]⟩ (2024, 12)) :=
  predict_uses_training_table (fun _ _ => (0 : ℚ)) [⟨"2024-12-01", "A", JSNum.inf true⟩]
    ⟨[(((0 : ℕ) : ℚ) / ((1 : ℕ) : ℚ), encLookup [("A", ((0 : ℕ) : ℚ) / ((1 : ℕ) : ℚ))] "A")],
     [JSNum.inf true],
     [("A", ((0 : ℕ) : ℚ) / ((1 : ℕ) : ℚ))], ["2024-12-01"], ["A"]⟩
    2024 12 rfl rfl

/-- C2: whenever at least one data row is well-formed (date matching
`YYYY-MM`, quantity parsing to a non-NaN number, product not numeric),
parsing succeeds and returns exactly the well-formed rows, in their original
order, each with `-01` appended to the date — no matter how many malformed
rows surround them. -/
theorem parse_returns_wellformed (text : String)
    (h : ∃ l ∈ dataLinesL text.data, wellFormedRowL l = true) :
    targetFileUpload text =
      Except.ok (((dataLinesL text.data).filter wellFormedRowL).map rowObsL) := by
  obtain ⟨l, hl, hw⟩ := h
  have hmem : l ∈ (dataLinesL text.data).filter wellFormedRowL := List.mem_filter.mpr ⟨hl, hw⟩
  unfold targetFileUpload
  rw [parseDataL_eq]
  have hne : ¬ ((((dataLinesL text.data).filter wellFormedRowL).map rowObsL).length = 0) := by
    simp only [List.length_map]
    intro hc
    exact List.ne_nil_of_mem hmem (List.length_eq_zero.mp hc)
  rw [if_neg hne]

/-- Witness for C2: two malformed rows (free text, numeric product) around
one well-formed row. -/
theorem parse_returns_wellformed_witness :
    targetFileUpload "date,product,quantity\nnot a row\n2024-01,A,Infinity\n2024-02,42,7" =
      Except.ok (((dataLinesL
          ("date,product,quantity\nnot a row\n2024-01,A,Infinity\n2024-02,42,7" : String).data).filter
        wellFormedRowL).map rowObsL) :=
  parse_returns_wellformed "date,product,quantity\nnot a row\n2024-01,A,Infinity\n2024-02,42,7"
    ⟨("2024-01,A,Infinity" : String).data, by decide, by decide⟩

/-- C3: parsing fails with the `No valid data` error exactly when no data
row survives the row filter (in particular for a header-only input), and any
input with at least one surviving row succeeds, returning just the surviving
rows. -/
theorem parse_error_iff (text : String) :
    (targetFileUpload text = Except.error "No valid data could be parsed from the file" ↔
      ∀ l ∈ dataLinesL text.data, parseRowL l = none) ∧
    (dataLinesL text.data = [] →
      targetFileUpload text = Except.error "No valid data could be parsed from the file") ∧
    (parseDataL text.data ≠ [] →
      targetFileUpload text = Except.ok (parseDataL text.data)) := by
  have key : parseDataL text.data = [] ↔ ∀ l ∈ dataLinesL text.data, parseRowL l = none :=
    List.filterMap_eq_nil_iff
  have master : targetFileUpload text =
      Except.error "No valid data could be parsed from the file" ↔
      parseDataL text.data = [] := by
    unfold targetFileUpload
    by_cases hc : (parseDataL text.data).length = 0
    · rw [if_pos hc]
      simp [List.length_eq_zero.mp hc]
    · rw [if_neg hc]
      constructor
      · intro hcontra
        cases hcontra
      · intro hnil
        exact absurd (by rw [hnil]; rfl) hc
  refine ⟨master.trans key, ?_, ?_⟩
  · intro hnil
    rw [master, key]
    intro l hl
    rw [hnil] at hl
    cases hl
  · intro hne
    unfold targetFileUpload
    rw [if_neg (fun hc => hne (List.length_eq_zero.mp hc))]

/-- Witness for C3: an input whose only data row is well-formed parses
successfully. -/
theorem parse_error_iff_witness :
    targetFileUpload "date,product,qty\n2024-01,A,Infinity" =
      Except.ok (parseDataL ("date,product,qty\n2024-01,A,Infinity" : String).data) :=
  (parse_error_iff "date,product,qty\n2024-01,A,Infinity").2.2 (by decide)

/-- C4 counterexample: the row `2024-01,Widget,Infinity` is kept, with the
non-finite quantity `+Infinity` — the quantity guard only rejects NaN, not
non-finite values, contradicting the claim that only finite quantities
survive. -/
theorem infinity_kept_counterexample :
    targetFileUpload "date,product,quantity\n2024-01,Widget,Infinity" =
      Except.ok [⟨"2024-01-01", "Widget", JSNum.inf true⟩] ∧
    (JSNum.inf true).isFinite = false :=
  ⟨rfl, rfl⟩

/-- C4 (amended): a row is dropped for its quantity exactly when the
quantity field parses to NaN; consequently every returned observation has a
non-NaN quantity, but non-finite quantities such as Infinity are kept. -/
theorem parse_drops_only_nan (text : String) :
    ∀ o ∈ parseDataL text.data, o.quantity ≠ JSNum.nan := by
  intro o ho
  obtain ⟨l, hl, hp⟩ := List.mem_filterMap.mp ho
  rw [parseRowL_eq] at hp
  by_cases hw : wellFormedRowL l = true
  · rw [if_pos hw] at hp
    have ho2 := Option.some.inj hp
    subst ho2
    unfold wellFormedRowL at hw
    simp only [Bool.and_eq_true] at hw
    have h2 := hw.1.2
    intro hq
    rw [show (rowObsL l).quantity =
        (match ((splitCommas l).map cleanFieldL)[2]? with
         | none => JSNum.nan
         | some s => parseFloatL s) from rfl] at hq
    rw [hq] at h2
    simp at h2
  · rw [if_neg hw] at hp
    cases hp

/-- Witness for C4 (amended): the kept Infinity row's quantity is not NaN. -/
theorem parse_drops_only_nan_witness :
    (Obs.mk "2024-01-01" "A" (JSNum.inf true)).quantity ≠ JSNum.nan :=
  parse_drops_only_nan "h\n2024-01,A,Infinity"
    (Obs.mk "2024-01-01" "A" (JSNum.inf true)) (by decide)

/-- C5 counterexample: in the row `2024-01,Wid"get,5` the double quote is
interior to the product field, yet the field cleaning removes it, producing
product `Widget` — contradicting the claim that only surrounding quotes are
stripped. -/
theorem interior_quotes_removed_counterexample :
    targetFileUpload "date,product,qty\n2024-01,Wid\"get,5" =
      Except.ok [⟨"2024-01-01", "Widget", JSNum.fin 5⟩] ∧
    ("Widget" : String) ≠ "Wid\"get" := by
  constructor
  · rw [show targetFileUpload "date,product,qty\n2024-01,Wid\"get,5" =
        Except.ok [⟨"2024-01-01", "Widget", parseFloatL ['5']⟩] from rfl,
      show parseFloatL ['5'] =
        JSNum.fin (applySign true (mantissaVal ['5'] [] * (10 : ℚ) ^ (0 : ℤ))) from rfl]
    norm_num [applySign, mantissaVal, digitsToNat, show digitVal '5' = 5 from rfl]
  · decide

/-- C5 (amended): each field is split on commas, trimmed of surrounding
whitespace, and then stripped of every double-quote character (interior ones
included, and quote removal happens after trimming), so no parsed
observation carries a double quote in its product or date. -/
theorem parsed_fields_quote_free (text : String) :
    ∀ o ∈ parseDataL text.data,
      (∀ c ∈ o.product.data, c ≠ '"') ∧ (∀ c ∈ o.date.data, c ≠ '"') := by
  intro o ho
  obtain ⟨l, hl, hp⟩ := List.mem_filterMap.mp ho
  rw [parseRowL_eq] at hp
  by_cases hw : wellFormedRowL l = true
  swap
  · rw [if_neg hw] at hp
    cases hp
  rw [if_pos hw] at hp
  have ho2 := Option.some.inj hp
  subst ho2
  constructor
  · intro c hc
    rw [show (rowObsL l).product.data = ((splitCommas l).map cleanFieldL).getD 1 [] from rfl,
      List.getD_eq_getElem?_getD] at hc
    rcases h1 : ((splitCommas l).map cleanFieldL)[1]? with _ | p
    · rw [h1] at hc
      cases hc
    · rw [h1] at hc
      simp only [Option.getD_some] at hc
      obtain ⟨raw, hraw, rfl⟩ := List.mem_map.mp (List.getElem?_mem h1)
      exact (mem_cleanFieldL raw c hc).2
  · intro c hc
    rw [show (rowObsL l).date.data =
        ((splitCommas l).map cleanFieldL).getD 0 [] ++ ['-', '0', '1'] from rfl] at hc
    rcases List.mem_append.mp hc with hc1 | hc1
    · cases hsc : splitCommas l with
      | nil => exact absurd hsc (splitOnChar_ne_nil ',' l)
      | cons p0 r =>
        rw [hsc] at hc1
        simp only [List.map_cons, List.getD_cons_zero] at hc1
        exact (mem_cleanFieldL p0 c hc1).2
    · simp only [List.mem_cons, List.not_mem_nil, or_false] at hc1
      rcases hc1 with rfl | rfl | rfl <;> decide

/-- Witness for C5 (amended): the kept row `2024-01,A,Infinity` has
quote-free fields; its product's character is not a double quote. -/
theorem parsed_fields_quote_free_witness : ('A' : Char) ≠ '"' :=
  (parsed_fields_quote_free "h\n2024-01,A,Infinity"
    ⟨"2024-01-01", "A", JSNum.inf true⟩ (by decide)).1 'A' (by decide)

/-- C10: a row whose product field is empty or consists only of whitespace
and double quotes is dropped (its product coerces to the number 0, so the
numeric-product guard fires), and consequently no parsed observation has an
empty product identifier. -/
theorem empty_product_dropped (line : List Char) (text : String) :
    (∀ raw, (splitCommas line)[1]? = some raw →
      (∀ c ∈ raw, isJSSpace c ∨ c = '"') → parseRowL line = none) ∧
    (∀ o ∈ parseDataL text.data, o.product ≠ "") := by
  constructor
  · intro raw h1 h2
    have hclean : ∀ c ∈ cleanFieldL raw, isJSSpace c := by
      intro c hc
      obtain ⟨hcr, hcq⟩ := mem_cleanFieldL raw c hc
      rcases h2 c hcr with hws | hqu
      · exact hws
      · exact absurd hqu hcq
    have hts : toNumberL (cleanFieldL raw) = JSNum.fin 0 := by
      have ht : trimL (cleanFieldL raw) = [] := trimL_eq_nil_of _ hclean
      unfold toNumberL
      rw [ht]
    have hf1 : ((splitCommas line).map cleanFieldL)[1]? = some (cleanFieldL raw) := by
      rw [List.getElem?_map, h1]
      rfl
    have hwf : wellFormedRowL line = false := by
      unfold wellFormedRowL
      simp only [hf1, hts]
      simp
    rw [parseRowL_eq, hwf]
    rfl
  · intro o ho hoe
    obtain ⟨l, hl, hp⟩ := List.mem_filterMap.mp ho
    rw [parseRowL_eq] at hp
    by_cases hw : wellFormedRowL l = true
    swap
    · rw [if_neg hw] at hp
      cases hp
    rw [if_pos hw] at hp
    have ho2 := Option.some.inj hp
    subst ho2
    unfold wellFormedRowL at hw
    simp only [Bool.and_eq_true] at hw
    have hpe : ((splitCommas l).map cleanFieldL).getD 1 [] = [] := by
      have : (rowObsL l).product = String.mk (((splitCommas l).map cleanFieldL).getD 1 []) := rfl
      rw [this] at hoe
      have := congrArg String.data hoe
      simpa using this
    rcases h1 : ((splitCommas l).map cleanFieldL)[1]? with _ | p
    · have h2 : ((splitCommas l).map cleanFieldL)[2]? = none := by
        rw [List.getElem?_eq_none_iff] at h1 ⊢
        omega
      have hq := hw.1.2
      rw [show (match ((splitCommas l).map cleanFieldL)[2]? with
          | none => JSNum.nan
          | some s => parseFloatL s) = JSNum.nan by rw [h2]] at hq
      simp at hq
    · have hp1 : p = [] := by
        rw [List.getD_eq_getElem?_getD, h1] at hpe
        simpa using hpe
      subst hp1
      have hprod := hw.2
      rw [show (match ((splitCommas l).map cleanFieldL)[1]? with
          | none => true
          | some q => toNumberL q == JSNum.nan) = (toNumberL [] == JSNum.nan) by rw [h1]] at hprod
      simp [show toNumberL [] = JSNum.fin 0 from rfl] at hprod

/-- Witness for C10: the row `2024-01," ",5` (product field is a quoted
space) is dropped, and a kept observation has a non-empty product. -/
theorem empty_product_dropped_witness :
    parseRowL ("2024-01,\" \",5" : String).data = none ∧
    (Obs.mk "2024-01-01" "A" (JSNum.inf true)).product ≠ "" := by
  have h := empty_product_dropped ("2024-01,\" \",5" : String).data "h\n2024-01,A,Infinity"
  exact ⟨h.1 ['"', ' ', '"'] (by decide) (by decide),
         h.2 ⟨"2024-01-01", "A", JSNum.inf true⟩ (by decide)⟩

/-- C6: for a non-empty observation list, every encoder value lies in
`[0, (N-1)/N]` for the `N` distinct products and every month index of a
feature row lies in `[0, (M-1)/M]` for the `M` distinct months; neither ever
reaches 1, and the first-seen product's code is 0. -/
theorem encoding_range (salesData : List Obs) (proc : Processed)
    (h : dataProcessing salesData = some proc) :
    (∀ pv ∈ proc.encoder,
      0 ≤ pv.2 ∧ pv.2 ≤ ((proc.products.length : ℚ) - 1) / (proc.products.length : ℚ) ∧
        pv.2 < 1) ∧
    (∀ row ∈ proc.inputs,
      0 ≤ row.1 ∧ row.1 ≤ ((proc.dates.length : ℚ) - 1) / (proc.dates.length : ℚ) ∧
        row.1 < 1) ∧
    (∀ o, salesData.head? = some o → encLookup proc.encoder o.product = 0) := by
  obtain ⟨hne, hprod, hdates, henc, hinp⟩ := dataProcessing_eq salesData proc h
  refine ⟨?_, ?_, ?_⟩
  · intro pv hpv
    rw [henc] at hpv
    unfold mkEncoder at hpv
    obtain ⟨k, hk0, hk1, hk2⟩ := mem_mkEncoderAux _ 0 _ pv hpv
    rw [hprod, hk2]
    have hkN : k < (firstSeen (salesData.map fun d => d.product)).length := by omega
    have hNq : (0 : ℚ) < ((firstSeen (salesData.map fun d => d.product)).length : ℚ) := by
      exact_mod_cast (by omega : 0 < (firstSeen (salesData.map fun d => d.product)).length)
    refine ⟨by positivity, ?_, ?_⟩
    · rw [div_le_div_iff_of_pos_right hNq]
      have hcast : (k : ℚ) + 1 ≤ ((firstSeen (salesData.map fun d => d.product)).length : ℚ) := by
        exact_mod_cast hkN
      linarith
    · rw [div_lt_one hNq]
      exact_mod_cast hkN
  · intro row hrow
    rw [hinp] at hrow
    obtain ⟨d, hd, rfl⟩ := List.mem_map.mp hrow
    have hdd : d.date ∈ proc.dates := by
      rw [hdates, mem_sortStrings, mem_firstSeen]
      exact List.mem_map_of_mem _ hd
    have hidx : proc.dates.indexOf d.date < proc.dates.length := List.indexOf_lt_length.mpr hdd
    have hMq : (0 : ℚ) < (proc.dates.length : ℚ) := by
      exact_mod_cast (by omega : 0 < proc.dates.length)
    dsimp only
    refine ⟨by positivity, ?_, ?_⟩
    · rw [div_le_div_iff_of_pos_right hMq]
      have hcast : (proc.dates.indexOf d.date : ℚ) + 1 ≤ (proc.dates.length : ℚ) := by
        exact_mod_cast hidx
      linarith
    · rw [div_lt_one hMq]
      exact_mod_cast hidx
  · intro o ho
    cases salesData with
    | nil => cases ho
    | cons o0 rest =>
      have ho0 : o0 = o := by simpa using ho
      subst ho0
      rw [henc]
      rw [show (List.map (fun d => d.product) (o0 :: rest)) =
        o0.product :: rest.map (fun d => d.product) from rfl]
      obtain ⟨r, hr⟩ := firstSeen_head o0.product (rest.map (fun d => d.product))
      rw [hr]
      unfold mkEncoder mkEncoderAux
      rw [encLookup_head]
      simp

/-- Witness for C6: a two-product data set; the first-seen product's code
is 0. -/
theorem encoding_range_witness :
    encLookup [("A", ((0 : ℕ) : ℚ) / ((2 : ℕ) : ℚ)), ("B", ((1 : ℕ) : ℚ) / ((2 : ℕ) : ℚ))]
      "A" = 0 :=
  (encoding_range
    [⟨"2024-01-01", "A", JSNum.inf true⟩, ⟨"2024-02-01", "B", JSNum.inf true⟩]
    ⟨[(((List.indexOf "2024-01-01" ["2024-01-01", "2024-02-01"] : ℕ) : ℚ) / ((2 : ℕ) : ℚ),
        encLookup [("A", ((0 : ℕ) : ℚ) / ((2 : ℕ) : ℚ)), ("B", ((1 : ℕ) : ℚ) / ((2 : ℕ) : ℚ))] "A"),
      (((List.indexOf "2024-02-01" ["2024-01-01", "2024-02-01"] : ℕ) : ℚ) / ((2 : ℕ) : ℚ),
        encLookup [("A", ((0 : ℕ) : ℚ) / ((2 : ℕ) : ℚ)), ("B", ((1 : ℕ) : ℚ) / ((2 : ℕ) : ℚ))] "B")],
     [JSNum.inf true, JSNum.inf true],
     [("A", ((0 : ℕ) : ℚ) / ((2 : ℕ) : ℚ)), ("B", ((1 : ℕ) : ℚ) / ((2 : ℕ) : ℚ))],
     ["2024-01-01", "2024-02-01"], ["A", "B"]⟩
    rfl).2.2 ⟨"2024-01-01", "A", JSNum.inf true⟩ rfl

end SalesForecast
